import Mathlib

/-!
# Verification of the mbes-grid-checks tiled grid-check engine

A shallow embedding, in Lean 4, of the core of the `ausseabed.mbesgc`
package (tiling, density/TVU check result handling, input resolution,
pink-chart extent alignment, and the executor's cancellation/caching
control flow), together with theorems settling the specification claims
about that code.

Conventions used throughout:

* Python integers are modelled as `Int` (they are arbitrary precision).
* Masked (`numpy.ma`) cell arrays are modelled as `List (Option Int)`:
  `none` is a masked (nodata) cell, `some v` a valid cell.  The density
  band is coerced to integers by `Executor._load_data` before any check
  runs, so density cells carry `Int` values.
* Python dicts keyed by ints are modelled as association lists
  (`List (Int × Nat)`) whose keys are pairwise distinct; Python dict
  equality ignores insertion order, which is mirrored here by comparing
  lookup functions or permutations of the entry lists.
* Python floats in the pink-chart extent computation are modelled as
  exact rationals (`ℚ`); the claim addressed there is about the exact
  arithmetic relationship, with the spec's "within eps" caveat.
* Fallible code (`raise RuntimeError`, an uncaught `StopIteration`) is
  modelled with `Except`/`Option`.
-/

namespace MbesGC

/-! ## Python `range`

`tiling.get_tiles` drives its loops with Python's `range(start, stop, step)`.
`pyRange` reproduces CPython's semantics: for `step > 0` the elements are
`start, start + step, ...` while `< stop`; for `step < 0` they are
`start, start + step, ...` while `> stop`; the length formulas below are
the standard closed forms for those element sets.  (`range` with
`step = 0` raises, but `get_tiles` asserts its sizes are nonzero before
any `range` call, so that case is unreachable there.)
-/

/-- Number of elements of Python `range(start, stop, step)`. -/
def pyRangeLen (start stop step : Int) : Nat :=
  if 0 < step then ((stop - start + step - 1) / step).toNat
  else if step < 0 then ((start - stop + (-step) - 1) / (-step)).toNat
  else 0

/-- Python `range(start, stop, step)` as a list of integers. -/
def pyRange (start stop step : Int) : List Int :=
  (List.range (pyRangeLen start stop step)).map
    (fun i : Nat => start + step * (i : Int))

theorem mem_pyRange {start stop step x : Int} :
    x ∈ pyRange start stop step ↔
      ∃ i : Nat, i < pyRangeLen start stop step ∧ x = start + step * (i : Int) := by
  unfold pyRange
  rw [List.mem_map]
  constructor
  · rintro ⟨i, hi, he⟩
    exact ⟨i, List.mem_range.mp hi, he.symm⟩
  · rintro ⟨i, hi, he⟩
    exact ⟨i, List.mem_range.mpr hi, he.symm⟩

/-- For a positive step, membership of an index in the range length is
equivalent to the corresponding element lying below `stop`. -/
theorem lt_pyRangeLen_iff {start stop step : Int} (hs : 0 < step) (i : Nat) :
    i < pyRangeLen start stop step ↔ start + step * (i : Int) < stop := by
  unfold pyRangeLen
  rw [if_pos hs, Int.lt_toNat]
  constructor
  · intro h
    have h1 : (i : Int) + 1 ≤ (stop - start + step - 1) / step := by
      omega
    have h2 := (Int.le_ediv_iff_mul_le hs).mp h1
    nlinarith
  · intro h
    have h1 : ((i : Int) + 1) * step ≤ stop - start + step - 1 := by nlinarith
    have h2 := (Int.le_ediv_iff_mul_le hs).mpr h1
    omega

/-! ## Tiling (`ausseabed/mbesgc/lib/tiling.py`)

```
def get_tiles(min_x, min_y, max_x, max_y, size_x, size_y):
    assert min_x < max_x
    assert min_y < max_y
    assert size_x != 0
    assert size_y != 0
    ...
    tiles = []
    for y in range(int(min_y), int(max_y), int(size_y)):
        next_y = y + int(size_y)
        next_y = max_y if next_y > max_y else next_y
        for x in range(int(min_x), int(max_x), int(size_x)):
            next_x = x + int(size_x)
            next_x = max_x if next_x > max_x else next_x
            tile = Tile(x, y, next_x, next_y)
            tiles.append(tile)
    return tiles
```

All arguments reaching `get_tiles` are Python ints, so the `int(...)`
coercions are the identity.  The two lines computing `rX`/`rY`
(`whole_steps_x = dX / int(size_x); rX = dX % whole_steps_x`) bind
variables that are never used afterwards and are omitted; with the
asserts passed, `whole_steps_x` is a nonzero float for every size
representable in practice, so they raise nothing.  A failed `assert` is
modelled as `none`.
-/

theorem pyRange_length (start stop step : Int) :
    (pyRange start stop step).length = pyRangeLen start stop step := by
  simp [pyRange]

theorem pyRange_getElem? {start stop step : Int} {i : Nat}
    (hi : i < pyRangeLen start stop step) :
    (pyRange start stop step)[i]? = some (start + step * (i : Int)) := by
  simp [pyRange, List.getElem?_range, hi]

theorem pyRangeLen_pos {start stop step : Int} (hs : 0 < step)
    (h : start < stop) : 0 < pyRangeLen start stop step := by
  have h0 : start + step * ((0 : Nat) : Int) < stop := by
    push_cast
    omega
  have := (lt_pyRangeLen_iff hs 0).mpr h0
  omega

/-- Locating the unique step interval containing a point `p` of
`[start, stop)` (positive step). -/
theorem pyRange_locate {start stop step p : Int} (hs : 0 < step)
    (h1 : start ≤ p) (h2 : p < stop) :
    ∃ i : Nat, i < pyRangeLen start stop step ∧
      start + step * (i : Int) ≤ p ∧ p < start + step * ((i : Int) + 1) := by
  have hb : 0 < step.toNat := by omega
  have hbi : (step.toNat : Int) = step := Int.toNat_of_nonneg hs.le
  have hqi : (((p - start).toNat : Nat) : Int) = p - start :=
    Int.toNat_of_nonneg (by omega)
  have hlow : step * (((p - start).toNat / step.toNat : Nat) : Int) ≤ p - start := by
    have hq : step.toNat * ((p - start).toNat / step.toNat) ≤ (p - start).toNat :=
      Nat.mul_div_le _ _
    have h2 : (step.toNat : Int) * (((p - start).toNat / step.toNat : Nat) : Int)
        ≤ (((p - start).toNat : Nat) : Int) := by exact_mod_cast hq
    rw [hbi, hqi] at h2
    exact h2
  have hhigh : p - start < step * (((p - start).toNat / step.toNat : Nat) : Int) + step := by
    have hmod := Nat.div_add_mod (p - start).toNat step.toNat
    have hlt : (p - start).toNat % step.toNat < step.toNat := Nat.mod_lt _ hb
    have h2n : (p - start).toNat
        < step.toNat * ((p - start).toNat / step.toNat) + step.toNat := by omega
    have h2 : (((p - start).toNat : Nat) : Int)
        < (step.toNat : Int) * (((p - start).toNat / step.toNat : Nat) : Int)
          + (step.toNat : Int) := by exact_mod_cast h2n
    rw [hbi, hqi] at h2
    exact h2
  refine ⟨(p - start).toNat / step.toNat, ?_, by omega, ?_⟩
  · rw [lt_pyRangeLen_iff hs]
    omega
  · have hd : step * ((((p - start).toNat / step.toNat : Nat) : Int) + 1)
        = step * (((p - start).toNat / step.toNat : Nat) : Int) + step := by ring
    omega

/-- Distinct step intervals are disjoint (positive step). -/
theorem pyRange_locate_unique {start step p : Int} (hs : 0 < step)
    {i j : Nat} (hij : i ≠ j)
    (hi1 : start + step * (i : Int) ≤ p) (hi2 : p < start + step * ((i : Int) + 1))
    (hj1 : start + step * (j : Int) ≤ p) (hj2 : p < start + step * ((j : Int) + 1)) :
    False := by
  rcases Nat.lt_or_ge i j with h | h
  · have hle : ((i : Int) + 1) ≤ (j : Int) := by exact_mod_cast h
    have := mul_le_mul_of_nonneg_left hle (le_of_lt hs)
    omega
  · have hlt : j < i := by omega
    have hle : ((j : Int) + 1) ≤ (i : Int) := by exact_mod_cast hlt
    have := mul_le_mul_of_nonneg_left hle (le_of_lt hs)
    omega

/-- Indexing a `flatMap` whose inner lists all have length `k`. -/
theorem flatMap_getElem?_const_length {α β : Type} (outer : List α)
    (f : α → List β) (k : Nat) (hk : ∀ a ∈ outer, (f a).length = k)
    (i j : Nat) (hj : j < k) :
    ∀ hi : i < outer.length,
      (outer.flatMap f)[i * k + j]? = (f (outer.get ⟨i, hi⟩))[j]? := by
  induction outer generalizing i with
  | nil => intro hi; simp at hi
  | cons a rest ih =>
    intro hi
    have hfa : (f a).length = k := hk a (List.mem_cons_self a rest)
    rw [List.flatMap_cons]
    cases i with
    | zero =>
      simp only [Nat.zero_mul, Nat.zero_add]
      rw [List.getElem?_append, if_pos (by omega)]
      rfl
    | succ i =>
      have hlen : (f a).length ≤ (i + 1) * k + j := by
        have : k ≤ (i + 1) * k := Nat.le_mul_of_pos_left k (Nat.succ_pos i)
        omega
      rw [List.getElem?_append_right hlen]
      have harith : (i + 1) * k + j - (f a).length = i * k + j := by
        rw [hfa]; ring_nf; omega
      rw [harith]
      exact ih (fun b hb => hk b (List.mem_cons_of_mem a hb)) i (by simpa using hi)

theorem flatMap_length_const {α β : Type} (outer : List α)
    (f : α → List β) (k : Nat) (hk : ∀ a ∈ outer, (f a).length = k) :
    (outer.flatMap f).length = outer.length * k := by
  induction outer with
  | nil => simp
  | cons a rest ih =>
    rw [List.flatMap_cons, List.length_append,
      hk a (List.mem_cons_self a rest),
      ih (fun b hb => hk b (List.mem_cons_of_mem a hb)),
      List.length_cons]
    ring

structure Tile where
  min_x : Int
  min_y : Int
  max_x : Int
  max_y : Int
deriving DecidableEq, Repr

def Tile.width (t : Tile) : Int := t.max_x - t.min_x

def Tile.height (t : Tile) : Int := t.max_y - t.min_y

/-- Pixel `(px, py)` lies inside tile `t` (tiles are half-open on the
upper bounds). -/
def Tile.contains (t : Tile) (px py : Int) : Prop :=
  t.min_x ≤ px ∧ px < t.max_x ∧ t.min_y ≤ py ∧ py < t.max_y

instance (t : Tile) (px py : Int) : Decidable (t.contains px py) := by
  unfold Tile.contains; infer_instance

/-- The tile built by one iteration of the inner loop body:
`next_x = x + size_x` truncated to `max_x`, and likewise for `y`
(`next_y` is computed in the outer loop but its value only depends on the
current `y`). -/
def mkTile (max_x max_y size_x size_y x y : Int) : Tile :=
  { min_x := x
    min_y := y
    max_x := if x + size_x > max_x then max_x else x + size_x
    max_y := if y + size_y > max_y then max_y else y + size_y }

def get_tiles (min_x min_y max_x max_y size_x size_y : Int) :
    Option (List Tile) :=
  if min_x < max_x ∧ min_y < max_y ∧ size_x ≠ 0 ∧ size_y ≠ 0 then
    some ((pyRange min_y max_y size_y).flatMap fun y =>
      (pyRange min_x max_x size_x).map fun x =>
        mkTile max_x max_y size_x size_y x y)
  else
    none

theorem pyRange_get {start stop step : Int} {i : Nat}
    (h : i < (pyRange start stop step).length) :
    (pyRange start stop step).get ⟨i, h⟩ = start + step * (i : Int) := by
  simp [pyRange]

theorem mkTile_contains_iff {max_x max_y size_x size_y x y px py : Int} :
    (mkTile max_x max_y size_x size_y x y).contains px py ↔
      (x ≤ px ∧ px < x + size_x ∧ px < max_x) ∧
      (y ≤ py ∧ py < y + size_y ∧ py < max_y) := by
  simp only [mkTile, Tile.contains]
  split_ifs <;> omega

/-- The tile list produced by `get_tiles` under its documented
preconditions. -/
def tilesList (min_x min_y max_x max_y size_x size_y : Int) : List Tile :=
  (pyRange min_y max_y size_y).flatMap fun y =>
    (pyRange min_x max_x size_x).map fun x =>
      mkTile max_x max_y size_x size_y x y

theorem get_tiles_eq_tilesList {min_x min_y max_x max_y size_x size_y : Int}
    (hx : min_x < max_x) (hy : min_y < max_y)
    (hsx : size_x ≠ 0) (hsy : size_y ≠ 0) :
    get_tiles min_x min_y max_x max_y size_x size_y =
      some (tilesList min_x min_y max_x max_y size_x size_y) := by
  unfold get_tiles tilesList
  rw [if_pos ⟨hx, hy, hsx, hsy⟩]

theorem mem_tilesList {min_x min_y max_x max_y size_x size_y : Int} {t : Tile} :
    t ∈ tilesList min_x min_y max_x max_y size_x size_y ↔
      ∃ j i : Nat, j < pyRangeLen min_x max_x size_x ∧
        i < pyRangeLen min_y max_y size_y ∧
        t = mkTile max_x max_y size_x size_y
          (min_x + size_x * (j : Int)) (min_y + size_y * (i : Int)) := by
  unfold tilesList
  rw [List.mem_flatMap]
  constructor
  · rintro ⟨y, hy, ht⟩
    rw [List.mem_map] at ht
    obtain ⟨x, hx, rfl⟩ := ht
    obtain ⟨i, hi, rfl⟩ := mem_pyRange.mp hy
    obtain ⟨j, hj, rfl⟩ := mem_pyRange.mp hx
    exact ⟨j, i, hj, hi, rfl⟩
  · rintro ⟨j, i, hj, hi, rfl⟩
    refine ⟨min_y + size_y * (i : Int), mem_pyRange.mpr ⟨i, hi, rfl⟩, ?_⟩
    rw [List.mem_map]
    exact ⟨min_x + size_x * (j : Int), mem_pyRange.mpr ⟨j, hj, rfl⟩, rfl⟩

theorem tilesList_length (min_x min_y max_x max_y size_x size_y : Int) :
    (tilesList min_x min_y max_x max_y size_x size_y).length =
      pyRangeLen min_y max_y size_y * pyRangeLen min_x max_x size_x := by
  unfold tilesList
  rw [flatMap_length_const _ _ (pyRangeLen min_x max_x size_x)
    (fun a _ => by simp [pyRange_length]), pyRange_length]

theorem tilesList_getElem? {min_x min_y max_x max_y size_x size_y : Int}
    (hx : min_x < max_x) (hsx : 0 < size_x) {n : Nat}
    (hn : n < pyRangeLen min_y max_y size_y * pyRangeLen min_x max_x size_x) :
    (tilesList min_x min_y max_x max_y size_x size_y)[n]? =
      some (mkTile max_x max_y size_x size_y
        (min_x + size_x * ((n % pyRangeLen min_x max_x size_x : Nat) : Int))
        (min_y + size_y * ((n / pyRangeLen min_x max_x size_x : Nat) : Int))) := by
  set X := pyRangeLen min_x max_x size_x with hX
  set Y := pyRangeLen min_y max_y size_y with hY
  have hXpos : 0 < X := pyRangeLen_pos hsx hx
  have hiY : n / X < Y := (Nat.div_lt_iff_lt_mul hXpos).mpr hn
  have hiY' : n / X < (pyRange min_y max_y size_y).length := by
    rw [pyRange_length]; exact hiY
  have hjX : n % X < X := Nat.mod_lt _ hXpos
  have hsplit : (n / X) * X + n % X = n := by
    rw [Nat.mul_comm (n / X) X]; exact Nat.div_add_mod n X
  have key : (tilesList min_x min_y max_x max_y size_x size_y)[(n / X) * X + n % X]?
      = some (mkTile max_x max_y size_x size_y
          (min_x + size_x * ((n % X : Nat) : Int))
          (min_y + size_y * ((n / X : Nat) : Int))) := by
    unfold tilesList
    rw [flatMap_getElem?_const_length _ _ X (fun a _ => by simp [pyRange_length])
        (n / X) (n % X) hjX hiY',
      pyRange_get, List.getElem?_map, pyRange_getElem? hjX]
    rfl
  rw [hsplit] at key
  exact key

/-- **C5.** For all integers `min_x < max_x`, `min_y < max_y` and sizes
`size_x, size_y > 0`, `get_tiles` returns (no assertion fires) a
sequence of pairwise-disjoint half-open rectangles whose union is
exactly the window `[min_x, max_x) × [min_y, max_y)`, each tile at most
`size_x` wide and `size_y` tall (right/bottom tiles truncated), and the
enumeration is row-major: the tile at list position `n` sits at column
`n % nx` (inner loop over `x` from `min_x`) and row `n / nx` (outer loop
over `y` from `min_y`), both advancing by the tile size. -/
theorem C5_get_tiles_partition
    (min_x min_y max_x max_y size_x size_y : Int)
    (hx : min_x < max_x) (hy : min_y < max_y)
    (hsx : 0 < size_x) (hsy : 0 < size_y) :
    ∃ ts : List Tile,
      get_tiles min_x min_y max_x max_y size_x size_y = some ts ∧
      ts.length =
        pyRangeLen min_y max_y size_y * pyRangeLen min_x max_x size_x ∧
      (∀ n : Nat, n < ts.length →
        ts[n]? = some (mkTile max_x max_y size_x size_y
          (min_x + size_x * ((n % pyRangeLen min_x max_x size_x : Nat) : Int))
          (min_y + size_y * ((n / pyRangeLen min_x max_x size_x : Nat) : Int)))) ∧
      (∀ t ∈ ts, 0 < t.width ∧ t.width ≤ size_x ∧
        0 < t.height ∧ t.height ≤ size_y) ∧
      (∀ px py : Int, (∃ t ∈ ts, t.contains px py) ↔
        (min_x ≤ px ∧ px < max_x ∧ min_y ≤ py ∧ py < max_y)) ∧
      (∀ m n : Nat, ∀ hm : m < ts.length, ∀ hn : n < ts.length, m ≠ n →
        ∀ px py : Int,
          ¬ ((ts.get ⟨m, hm⟩).contains px py ∧
             (ts.get ⟨n, hn⟩).contains px py)) := by
  set X := pyRangeLen min_x max_x size_x with hX
  set Y := pyRangeLen min_y max_y size_y with hY
  refine ⟨tilesList min_x min_y max_x max_y size_x size_y,
    get_tiles_eq_tilesList hx hy (by omega) (by omega), tilesList_length .., ?_, ?_, ?_, ?_⟩
  · intro n hn
    rw [tilesList_length] at hn
    exact tilesList_getElem? hx hsx hn
  · intro t ht
    obtain ⟨j, i, hj, hi, rfl⟩ := mem_tilesList.mp ht
    have hxj : min_x + size_x * (j : Int) < max_x := (lt_pyRangeLen_iff hsx j).mp hj
    have hyi : min_y + size_y * (i : Int) < max_y := (lt_pyRangeLen_iff hsy i).mp hi
    simp only [mkTile, Tile.width, Tile.height]
    split_ifs <;> omega
  · intro px py
    constructor
    · rintro ⟨t, ht, hc⟩
      obtain ⟨j, i, hj, hi, rfl⟩ := mem_tilesList.mp ht
      rw [mkTile_contains_iff] at hc
      have hjn : (0 : Int) ≤ size_x * (j : Int) :=
        mul_nonneg hsx.le (Int.natCast_nonneg j)
      have hin : (0 : Int) ≤ size_y * (i : Int) :=
        mul_nonneg hsy.le (Int.natCast_nonneg i)
      omega
    · rintro ⟨h1, h2, h3, h4⟩
      obtain ⟨j, hj, hj1, hj2⟩ := pyRange_locate hsx h1 h2
      obtain ⟨i, hi, hi1, hi2⟩ := pyRange_locate hsy h3 h4
      refine ⟨mkTile max_x max_y size_x size_y
        (min_x + size_x * (j : Int)) (min_y + size_y * (i : Int)),
        mem_tilesList.mpr ⟨j, i, hj, hi, rfl⟩, ?_⟩
      rw [mkTile_contains_iff]
      have ej : size_x * ((j : Int) + 1) = size_x * (j : Int) + size_x := by ring
      have ei : size_y * ((i : Int) + 1) = size_y * (i : Int) + size_y := by ring
      omega
  · intro m n hm hn hmn px py ⟨hcm, hcn⟩
    rw [tilesList_length] at hm hn
    have h1 := tilesList_getElem? hx hsx hm
    have h2 := tilesList_getElem? hx hsx hn
    have hm' : m < (tilesList min_x min_y max_x max_y size_x size_y).length := by
      rw [tilesList_length]; exact hm
    have hn' : n < (tilesList min_x min_y max_x max_y size_x size_y).length := by
      rw [tilesList_length]; exact hn
    rw [List.getElem?_eq_getElem hm'] at h1
    rw [List.getElem?_eq_getElem hn'] at h2
    have hgm : (tilesList min_x min_y max_x max_y size_x size_y).get ⟨m, hm'⟩
        = mkTile max_x max_y size_x size_y
          (min_x + size_x * ((m % X : Nat) : Int))
          (min_y + size_y * ((m / X : Nat) : Int)) := by
      have := h1
      simpa using this
    have hgn : (tilesList min_x min_y max_x max_y size_x size_y).get ⟨n, hn'⟩
        = mkTile max_x max_y size_x size_y
          (min_x + size_x * ((n % X : Nat) : Int))
          (min_y + size_y * ((n / X : Nat) : Int)) := by
      have := h2
      simpa using this
    rw [hgm, mkTile_contains_iff] at hcm
    rw [hgn, mkTile_contains_iff] at hcn
    have hXpos : 0 < X := pyRangeLen_pos hsx hx
    by_cases hcol : m % X = n % X
    · have hrow : m / X ≠ n / X := by
        intro h
        apply hmn
        have edm := Nat.div_add_mod m X
        have edn := Nat.div_add_mod n X
        rw [h, hcol] at edm
        omega
      have em : size_y * (((m / X : Nat) : Int) + 1)
          = size_y * ((m / X : Nat) : Int) + size_y := by ring
      have en : size_y * (((n / X : Nat) : Int) + 1)
          = size_y * ((n / X : Nat) : Int) + size_y := by ring
      have a2 : py < min_y + size_y * (((m / X : Nat) : Int) + 1) := by omega
      have a4 : py < min_y + size_y * (((n / X : Nat) : Int) + 1) := by omega
      exact pyRange_locate_unique hsy hrow hcm.2.1 a2 hcn.2.1 a4
    · have em : size_x * (((m % X : Nat) : Int) + 1)
          = size_x * ((m % X : Nat) : Int) + size_x := by ring
      have en : size_x * (((n % X : Nat) : Int) + 1)
          = size_x * ((n % X : Nat) : Int) + size_x := by ring
      have a2 : px < min_x + size_x * (((m % X : Nat) : Int) + 1) := by omega
      have a4 : px < min_x + size_x * (((n % X : Nat) : Int) + 1) := by omega
      exact pyRange_locate_unique hsx hcol hcm.1.1 a2 hcn.1.1 a4

/-- Witness for C5: the theorem applied to the concrete window
`(0,0)–(14,10)` with tile size `5 × 3` (the spec's scenario S5). -/
theorem C5_get_tiles_partition_witness :
    (0 : Int) < 14 ∧ (0 : Int) < 10 ∧ (0 : Int) < 5 ∧ (0 : Int) < 3 ∧
    (∃ ts : List Tile,
      get_tiles 0 0 14 10 5 3 = some ts ∧
      ts.length = pyRangeLen 0 10 3 * pyRangeLen 0 14 5 ∧
      (∀ n : Nat, n < ts.length →
        ts[n]? = some (mkTile 14 10 5 3
          (0 + 5 * ((n % pyRangeLen 0 14 5 : Nat) : Int))
          (0 + 3 * ((n / pyRangeLen 0 14 5 : Nat) : Int)))) ∧
      (∀ t ∈ ts, 0 < t.width ∧ t.width ≤ 5 ∧ 0 < t.height ∧ t.height ≤ 3) ∧
      (∀ px py : Int, (∃ t ∈ ts, t.contains px py) ↔
        (0 ≤ px ∧ px < 14 ∧ 0 ≤ py ∧ py < 10)) ∧
      (∀ m n : Nat, ∀ hm : m < ts.length, ∀ hn : n < ts.length, m ≠ n →
        ∀ px py : Int,
          ¬ ((ts.get ⟨m, hm⟩).contains px py ∧
             (ts.get ⟨n, hn⟩).contains px py))) :=
  ⟨by decide, by decide, by decide, by decide,
    C5_get_tiles_partition 0 0 14 10 5 3
      (by decide) (by decide) (by decide) (by decide)⟩

/-- **C10.** `get_tiles` only asserts its tile sizes are nonzero, not
positive: with `min_x < max_x`, `min_y < max_y` but a negative size, no
assertion fires (the result is `some _`, not the assertion-failure
`none`) and the returned tile list is empty, so outside the documented
`size > 0` precondition the tiles do not cover the (nonempty) input
window.  Size `0`, by contrast, does trip an assertion. -/
theorem C10_get_tiles_negative_size_empty :
    get_tiles 0 0 10 10 (-3) 3 = some [] ∧
    get_tiles 0 0 10 10 3 (-3) = some [] ∧
    get_tiles 0 0 10 10 (-3) (-3) = some [] ∧
    get_tiles 0 0 10 10 0 3 = none ∧
    get_tiles 0 0 10 10 3 0 = none := by
  decide

/-! ## Density histograms
(`DensityCheck` in `ausseabed/mbesgc/lib/mbesgridcheck.py`)

`DensityCheck.run` builds `density_histogram`, a Python dict mapping a
soundings count to its number of occurrences among the non-masked cells
of the tile's density band.  A dict with `Int` keys is modelled as an
association list with pairwise-distinct keys; Python dict equality
ignores insertion order, mirrored here by comparing lookups or entry
permutations.
-/

/-- A Python `dict` from sounding count to occurrences, as an
association list. -/
abbrev Hist := List (Int × Nat)

/-- `h[k]` with default `0` (Python's `h[k] if k in h else 0`); on a
well-formed dict every key occurs at most once, so first match wins. -/
def lookupH : Hist → Int → Nat
  | [], _ => 0
  | e :: es, k => if e.1 = k then e.2 else lookupH es k

def histKeys (h : Hist) : List Int := h.map Prod.fst

/-- One iteration of the loop in `DensityCheck.merge_results`:

```
if soundings_count in self.density_histogram:
    self.density_histogram[soundings_count] += last_count
else:
    self.density_histogram[soundings_count] = last_count
```

(increment the entry if the key is present, else insert it at the end,
which is where Python dict insertion order puts a fresh key). -/
def addEntry : Hist → Int × Nat → Hist
  | [], kv => [kv]
  | e :: es, kv =>
    if e.1 = kv.1 then (e.1, e.2 + kv.2) :: es else e :: addEntry es kv

/-- The whole of `DensityCheck.merge_results` restricted to the
histogram: fold every entry of `last_check.density_histogram` into
`self.density_histogram`. -/
def histAdd (self last : Hist) : Hist := last.foldl addEntry self

/-- Sum of a histogram's occurrence counts
(`total_soundings = sum(counts.values())` is taken over the sorted
dict; sorting does not change the sum, see
`total_soundings_eq_histTotal`). -/
def histTotal (h : Hist) : Nat := (h.map Prod.snd).sum

/-- `counts = collections.OrderedDict(sorted(hist.items()))` from
`DensityCheck.get_outputs`. -/
def sortedCounts (h : Hist) : Hist :=
  h.mergeSort (fun a b => decide (a.1 ≤ b.1))

/-- `total_soundings = sum(counts.values())` from
`DensityCheck.get_outputs`. -/
def total_soundings (h : Hist) : Nat := ((sortedCounts h).map Prod.snd).sum

theorem total_soundings_eq_histTotal (h : Hist) :
    total_soundings h = histTotal h := by
  unfold total_soundings histTotal sortedCounts
  exact List.Perm.sum_eq (List.Perm.map _ (List.mergeSort_perm h _))

theorem lookupH_addEntry (self : Hist) (k : Int) (v : Nat) (k' : Int) :
    lookupH (addEntry self (k, v)) k'
      = lookupH self k' + (if k' = k then v else 0) := by
  induction self with
  | nil => simp only [addEntry, lookupH]; split_ifs <;> omega
  | cons e es ih =>
    simp only [addEntry, lookupH]
    by_cases hek : e.1 = k
    · rw [if_pos hek]
      simp only [lookupH]
      split_ifs <;> omega
    · rw [if_neg hek]
      simp only [lookupH]
      split_ifs with h1 h2
      · exact absurd (h1.trans h2) hek
      · omega
      · rw [ih, if_pos (by assumption)]
      · rw [ih, if_neg (by assumption)]

theorem histTotal_addEntry (self : Hist) (kv : Int × Nat) :
    histTotal (addEntry self kv) = histTotal self + kv.2 := by
  induction self with
  | nil => simp [addEntry, histTotal]
  | cons e es ih =>
    simp only [addEntry]
    split_ifs with h
    · simp only [histTotal, List.map_cons, List.sum_cons] at *
      omega
    · simp only [histTotal, List.map_cons, List.sum_cons] at *
      omega

theorem histKeys_addEntry (self : Hist) (kv : Int × Nat) :
    histKeys (addEntry self kv)
      = if kv.1 ∈ histKeys self then histKeys self
        else histKeys self ++ [kv.1] := by
  induction self with
  | nil => simp [addEntry, histKeys]
  | cons e es ih =>
    by_cases h : e.1 = kv.1
    · simp only [addEntry, if_pos h]
      have hmem : kv.1 ∈ histKeys (e :: es) := by
        simp only [histKeys, List.map_cons, List.mem_cons]
        exact Or.inl h.symm
      rw [if_pos hmem]
      simp [histKeys]
    · simp only [addEntry, if_neg h]
      have hcons : histKeys (e :: addEntry es kv)
          = e.1 :: histKeys (addEntry es kv) := by simp [histKeys]
      have hcons2 : histKeys (e :: es) = e.1 :: histKeys es := by simp [histKeys]
      by_cases hmem : kv.1 ∈ histKeys es
      · have hmem2 : kv.1 ∈ histKeys (e :: es) := by
          rw [hcons2]; exact List.mem_cons_of_mem _ hmem
        rw [if_pos hmem2, hcons, ih, if_pos hmem, hcons2]
      · have hmem2 : kv.1 ∉ histKeys (e :: es) := by
          rw [hcons2]
          intro hc
          rcases List.mem_cons.mp hc with h1 | h1
          · exact h h1.symm
          · exact hmem h1
        rw [if_neg hmem2, hcons, ih, if_neg hmem, hcons2, List.cons_append]

theorem nodup_addEntry {self : Hist} (h : (histKeys self).Nodup)
    (kv : Int × Nat) : (histKeys (addEntry self kv)).Nodup := by
  rw [histKeys_addEntry]
  split_ifs with hmem
  · exact h
  · simp [List.nodup_append, h, hmem]

theorem lookupH_eq_zero_of_not_mem {h : Hist} {k : Int}
    (hk : k ∉ histKeys h) : lookupH h k = 0 := by
  induction h with
  | nil => rfl
  | cons e es ih =>
    simp only [histKeys, List.map_cons, List.mem_cons] at hk
    push_neg at hk
    simp only [lookupH]
    rw [if_neg (fun he => hk.1 he.symm)]
    exact ih hk.2

theorem lookupH_histAdd (self last : Hist)
    (hlast : (histKeys last).Nodup) (k : Int) :
    lookupH (histAdd self last) k = lookupH self k + lookupH last k := by
  induction last generalizing self with
  | nil => simp [histAdd, lookupH]
  | cons e es ih =>
    obtain ⟨k0, v0⟩ := e
    simp only [histKeys, List.map_cons, List.nodup_cons] at hlast
    have hstep : histAdd self ((k0, v0) :: es)
        = histAdd (addEntry self (k0, v0)) es := rfl
    rw [hstep, ih _ hlast.2, lookupH_addEntry]
    simp only [lookupH]
    by_cases hk : k = k0
    · subst hk
      rw [if_pos rfl, if_pos rfl,
        lookupH_eq_zero_of_not_mem (show k ∉ histKeys es from hlast.1)]
      omega
    · rw [if_neg hk, if_neg (fun he => hk he.symm)]
      omega

theorem histTotal_histAdd (self last : Hist) :
    histTotal (histAdd self last) = histTotal self + histTotal last := by
  induction last generalizing self with
  | nil => simp [histAdd, histTotal]
  | cons e es ih =>
    have hstep : histAdd self (e :: es) = histAdd (addEntry self e) es := rfl
    rw [hstep, ih, histTotal_addEntry]
    simp only [histTotal, List.map_cons, List.sum_cons]
    omega

theorem nodup_histAdd {self : Hist} (h : (histKeys self).Nodup)
    (last : Hist) : (histKeys (histAdd self last)).Nodup := by
  induction last generalizing self with
  | nil => exact h
  | cons e es ih => exact ih (nodup_addEntry h e)

/-- First histogram of spec scenario S7 and of
`test_result_hist_chunk_merge`. -/
def s7histA : Hist := [(0, 3), (1, 5), (2, 7), (5, 8), (10, 1)]

/-- Second histogram of spec scenario S7. -/
def s7histB : Hist := [(0, 1), (2, 3), (4, 2), (5, 3), (9, 1)]

/-- The expected merged dict of spec scenario S7 (as a dict it is
compared up to entry order). -/
def s7merged : Hist :=
  [(0, 4), (1, 5), (2, 10), (4, 2), (5, 11), (9, 1), (10, 1)]

/-- **C6.** `DensityCheck` histogram merging (per-bucket integer
addition, absent keys inserted) is commutative and associative over
histograms — as Python dicts, i.e. up to entry order: the lookup
functions agree — and merging the two S7 histograms in either order
yields `{0:4, 1:5, 2:10, 4:2, 5:11, 9:1, 10:1}` (a permutation of that
dict's entry list). -/
theorem C6_histAdd_comm_assoc (a b c : Hist)
    (ha : (histKeys a).Nodup) (hb : (histKeys b).Nodup)
    (hc : (histKeys c).Nodup) :
    (∀ k, lookupH (histAdd a b) k = lookupH (histAdd b a) k) ∧
    (∀ k, lookupH (histAdd (histAdd a b) c) k
        = lookupH (histAdd a (histAdd b c)) k) ∧
    (histAdd s7histA s7histB).Perm s7merged ∧
    (histAdd s7histB s7histA).Perm s7merged := by
  refine ⟨?_, ?_, by decide, by decide⟩
  · intro k
    rw [lookupH_histAdd a b hb k, lookupH_histAdd b a ha k]
    omega
  · intro k
    rw [lookupH_histAdd (histAdd a b) c hc k,
      lookupH_histAdd a b hb k,
      lookupH_histAdd a (histAdd b c) (nodup_histAdd hb c) k,
      lookupH_histAdd b c hc k]
    omega

/-- Witness for C6 at the concrete S7 histograms. -/
theorem C6_histAdd_comm_assoc_witness :
    (histKeys s7histA).Nodup ∧ (histKeys s7histB).Nodup ∧
    (histKeys s7merged).Nodup ∧
    ((∀ k, lookupH (histAdd s7histA s7histB) k
        = lookupH (histAdd s7histB s7histA) k) ∧
     (∀ k, lookupH (histAdd (histAdd s7histA s7histB) s7merged) k
        = lookupH (histAdd s7histA (histAdd s7histB s7merged)) k) ∧
     (histAdd s7histA s7histB).Perm s7merged ∧
     (histAdd s7histB s7histA).Perm s7merged) :=
  ⟨by decide, by decide, by decide,
    C6_histAdd_comm_assoc s7histA s7histB s7merged
      (by decide) (by decide) (by decide)⟩

/-! ## `DensityCheck` per-tile state and merging

`DensityCheck.run` (mbesgridcheck.py, lines 57–98) on a tile with a
density band present:

```
self.total_cell_count = int(density.count())
if self.total_cell_count == 0:
    self.density_histogram = {}
    return
unique_vals, unique_counts = np.unique(density, return_counts=True)
hist = {}
for (val, count) in zip(unique_vals, unique_counts):
    if isinstance(val, ma.core.MaskedConstant):
        continue
    hist[int(val)] = int(count)
self.density_histogram = hist
```

`density.count()` is the number of non-masked cells; `np.unique` yields
each distinct non-masked value with its multiplicity (`int(val)` is the
identity here because the executor has already coerced density to int).
The dict insertion order (`np.unique` sorts ascending, `dedup` keeps
first occurrence) never matters downstream: `get_outputs` re-sorts the
dict and `merge_results` is keyed lookup.

`DensityCheck.merge_results` (lines 243–259) adds `last_check`'s
histogram into `self`'s per bucket; it does **not** touch
`total_cell_count` (contrast `TvuCheck.merge_results`, which sums it).
-/

/-- The histogram `np.unique` produces over the non-masked cells. -/
def histOfTile (cells : List (Option Int)) : Hist :=
  let vals := cells.filterMap id
  vals.dedup.map (fun v => (v, vals.count v))

structure DensityState where
  density_histogram : Hist
  total_cell_count : Nat
deriving DecidableEq, Repr

/-- `DensityCheck.run` on one tile's density cells. -/
def densityRun (cells : List (Option Int)) : DensityState :=
  let tcc := (cells.filterMap id).length
  if tcc = 0 then { density_histogram := [], total_cell_count := tcc }
  else { density_histogram := histOfTile cells, total_cell_count := tcc }

/-- `DensityCheck.merge_results` (`self` is the freshly run tile's
check, `last` the cached previous result): histograms are added
per-bucket, `total_cell_count` is left as `self`'s. -/
def densityMergeResults (self last : DensityState) : DensityState :=
  { density_histogram := histAdd self.density_histogram last.density_histogram
    total_cell_count := self.total_cell_count }

/-- The executor's per-tile loop for one `DensityCheck` id: run the
check on each tile in order and merge it with the cached result
(`check.merge_results(last_check)`; the new instance replaces the cache
entry).  `none` when there are no tiles (the cache never gets an
entry). -/
def densityFoldTiles (tiles : List (List (Option Int))) : Option DensityState :=
  match tiles with
  | [] => none
  | t :: rest =>
    some (rest.foldl
      (fun acc cells => densityMergeResults (densityRun cells) acc)
      (densityRun t))

theorem lookupH_map_count (keys : List Int) (f : Int → Nat) (k : Int) :
    lookupH (keys.map (fun v => (v, f v))) k
      = if k ∈ keys then f k else 0 := by
  induction keys with
  | nil => simp [lookupH]
  | cons a ks ih =>
    simp only [List.map_cons, lookupH, List.mem_cons]
    by_cases h : a = k
    · subst h
      simp
    · rw [if_neg h, ih]
      by_cases hm : k ∈ ks
      · rw [if_pos hm, if_pos (Or.inr hm)]
      · rw [if_neg hm, if_neg (by rintro (h1 | h1); exact h h1.symm; exact hm h1)]

theorem lookupH_histOfTile (cells : List (Option Int)) (k : Int) :
    lookupH (histOfTile cells) k = (cells.filterMap id).count k := by
  unfold histOfTile
  rw [lookupH_map_count]
  by_cases hm : k ∈ (cells.filterMap id).dedup
  · rw [if_pos hm]
  · rw [if_neg hm]
    exact (List.count_eq_zero.mpr (fun hc => hm (List.mem_dedup.mpr hc))).symm

theorem nodup_histOfTile (cells : List (Option Int)) :
    (histKeys (histOfTile cells)).Nodup := by
  unfold histOfTile histKeys
  rw [List.map_map]
  have : (Prod.fst ∘ fun v : Int => (v, (cells.filterMap id).count v)) = id := rfl
  rw [this, List.map_id]
  exact List.nodup_dedup _

theorem densityRun_lookup (cells : List (Option Int)) (k : Int) :
    lookupH (densityRun cells).density_histogram k
      = (cells.filterMap id).count k := by
  unfold densityRun
  dsimp only
  split_ifs with h
  · have : cells.filterMap id = [] := List.length_eq_zero.mp h
    simp [lookupH, this]
  · exact lookupH_histOfTile cells k

theorem densityRun_nodup (cells : List (Option Int)) :
    (histKeys (densityRun cells).density_histogram).Nodup := by
  unfold densityRun
  dsimp only
  split_ifs with h
  · simp [histKeys]
  · exact nodup_histOfTile cells

theorem densityRun_total (cells : List (Option Int)) :
    histTotal (densityRun cells).density_histogram
      = (cells.filterMap id).length := by
  unfold densityRun
  dsimp only
  split_ifs with h
  · simp [histTotal]
    omega
  · unfold histOfTile histTotal
    rw [List.map_map]
    have : ((Prod.snd ∘ fun v : Int => (v, (cells.filterMap id).count v)))
        = fun v => (cells.filterMap id).count v := rfl
    rw [this]
    exact List.sum_map_count_dedup_eq_length _

theorem densityFold_foldl (rest : List (List (Option Int)))
    (acc : DensityState) (hacc : (histKeys acc.density_histogram).Nodup) :
    (histKeys ((rest.foldl
        (fun a c => densityMergeResults (densityRun c) a)
        acc).density_histogram)).Nodup ∧
    histTotal ((rest.foldl
        (fun a c => densityMergeResults (densityRun c) a)
        acc).density_histogram)
      = histTotal acc.density_histogram + (rest.flatten.filterMap id).length ∧
    ∀ k, lookupH ((rest.foldl
        (fun a c => densityMergeResults (densityRun c) a)
        acc).density_histogram) k
      = lookupH acc.density_histogram k + (rest.flatten.filterMap id).count k := by
  induction rest generalizing acc with
  | nil => simp [histTotal, lookupH, hacc]
  | cons c rest ih =>
    have hacc' : (histKeys (densityMergeResults (densityRun c)
        acc).density_histogram).Nodup :=
      nodup_histAdd (densityRun_nodup c) _
    obtain ⟨ihn, iht, ihl⟩ := ih (densityMergeResults (densityRun c) acc) hacc'
    rw [List.foldl_cons]
    refine ⟨ihn, ?_, ?_⟩
    · rw [iht]
      simp only [densityMergeResults, histTotal_histAdd, densityRun_total,
        List.flatten_cons, List.filterMap_append, List.length_append]
      omega
    · intro k
      rw [ihl k]
      simp only [densityMergeResults,
        lookupH_histAdd _ _ hacc, densityRun_lookup,
        List.flatten_cons, List.filterMap_append, List.count_append]
      omega

/-- **C2 (amended).** For every density input processed as two or more
tiles (each containing at least one non-masked cell) and folded
together with `merge_results`, the merged `DensityCheck` satisfies
`total_soundings == Σ histogram.values()` `==` the number of non-masked
density cells summed across all tiles, and the merged histogram is
determined by the concatenation of the cells alone (bucket `k` holds the
count of value `k` there), so these quantities are invariant to the
tile partition.  (The instance attribute `total_cell_count` is *not*
accumulated by `DensityCheck.merge_results` and is excluded here; see
the counterexample.) -/
theorem C2_density_merge_totals (tiles : List (List (Option Int)))
    (h2 : 2 ≤ tiles.length)
    (hne : ∀ t ∈ tiles, 1 ≤ (t.filterMap id).length) :
    ∃ s : DensityState, densityFoldTiles tiles = some s ∧
      total_soundings s.density_histogram = histTotal s.density_histogram ∧
      histTotal s.density_histogram = (tiles.flatten.filterMap id).length ∧
      (∀ k, lookupH s.density_histogram k
        = (tiles.flatten.filterMap id).count k) := by
  match tiles with
  | t :: rest =>
    obtain ⟨hnodup, htot, hlook⟩ :=
      densityFold_foldl rest (densityRun t) (densityRun_nodup t)
    refine ⟨_, rfl, total_soundings_eq_histTotal _, ?_, ?_⟩
    · rw [htot, densityRun_total]
      simp [List.flatten_cons, List.filterMap_append]
    · intro k
      rw [hlook k, densityRun_lookup]
      simp [List.flatten_cons, List.filterMap_append, List.count_append]

/-- Witness for C2 (amended) at the two-tile input
`[[1], [2, 3]]` (no masked cells). -/
theorem C2_density_merge_totals_witness :
    2 ≤ ([[some 1], [some 2, some 3]] : List (List (Option Int))).length ∧
    (∀ t ∈ ([[some 1], [some 2, some 3]] : List (List (Option Int))),
      1 ≤ (t.filterMap id).length) ∧
    (∃ s : DensityState,
      densityFoldTiles [[some 1], [some 2, some 3]] = some s ∧
      total_soundings s.density_histogram = histTotal s.density_histogram ∧
      histTotal s.density_histogram
        = (([[some 1], [some 2, some 3]]
            : List (List (Option Int))).flatten.filterMap id).length ∧
      (∀ k, lookupH s.density_histogram k
        = (([[some 1], [some 2, some 3]]
            : List (List (Option Int))).flatten.filterMap id).count k)) :=
  ⟨by decide, by decide,
    C2_density_merge_totals [[some 1], [some 2, some 3]]
      (by decide) (by decide)⟩

/-- Counterexample to C2 as frozen: after merging two tiles with 1 and
2 non-masked density cells, the merged instance's `total_cell_count`
attribute is `2` (the most recently merged tile's count —
`DensityCheck.merge_results` never adds it up), while
`Σ histogram.values()` and the number of non-masked cells summed across
the tiles are both `3`, so
`total_soundings == Σ histogram.values() == total_cell_count` fails. -/
theorem C2_total_cell_count_counterexample :
    densityFoldTiles [[some 1], [some 2, some 3]]
      = some { density_histogram := [(2, 1), (3, 1), (1, 1)]
               total_cell_count := 2 } ∧
    histTotal [(2, 1), (3, 1), (1, 1)] = 3 ∧
    (([[some (1 : Int)], [some 2, some 3]]
        : List (List (Option Int))).flatten.filterMap id).length = 3 ∧
    (2 : Nat) ≠ 3 := by
  refine ⟨by decide, by decide, by decide, by decide⟩

/-! ## Check execution status and `TvuCheck.get_outputs`
(`gridcheck.py` base class, `mbesgridcheck.py` TvuCheck, `executor.py`)

The status strings `draft / running / completed / failed / aborted` are
modelled as an inductive.  The transitions embedded below are exactly:

* `GridCheck.__init__`: `execution_status = 'draft'`, and TvuCheck's
  `total_cell_count = 0`, `failed_cell_count = 0`;
* `GridCheck.check_started`: `execution_status = 'running'`;
* `GridCheck.check_ended`: `'completed'` if currently `'running'`;
* `TvuCheck.run` with a missing depth/uncertainty band:
  `execution_status = 'aborted'` and return before any counting;
* `Executor._run_checks` (lines 216–232): `check_started`, then `run`
  and `check_ended` inside `try`; on any exception
  `execution_status = 'failed'` (and `check_ended` is skipped).
-/

inductive ExecStatus
  | draft
  | running
  | completed
  | failed
  | aborted
deriving DecidableEq, Repr

inductive GridCheckState
  | cs_pass
  | cs_warning
  | cs_fail
deriving DecidableEq, Repr

structure TvuState where
  execution_status : ExecStatus
  failed_cell_count : Nat
  total_cell_count : Nat
deriving DecidableEq, Repr

/-- `TvuCheck.__init__` (plus the base `GridCheck.__init__`). -/
def tvuInit : TvuState :=
  { execution_status := .draft, failed_cell_count := 0, total_cell_count := 0 }

/-- `GridCheck.check_started`. -/
def check_started (s : TvuState) : TvuState :=
  { s with execution_status := .running }

/-- `GridCheck.check_ended`. -/
def check_ended (s : TvuState) : TvuState :=
  if s.execution_status = .running
  then { s with execution_status := .completed }
  else s

/-- The `except` branch of `Executor._run_checks`: a check whose `run`
raised is marked `failed` (its counters keep whatever values they had —
for an exception before any counting, the zeros from `__init__`). -/
def executorCatchFailed (s : TvuState) : TvuState :=
  { s with execution_status := .failed }

/-- The branch selection of `TvuCheck.get_outputs`
(mbesgridcheck.py lines 617–674):

```
if self.execution_status == "aborted":
    return ... check_state=GridCheckState.cs_fail
elif self.failed_cell_count > 0:
    return ... check_state=GridCheckState.cs_fail
else:
    return ... check_state=GridCheckState.cs_pass
```
-/
def tvuCheckState (s : TvuState) : GridCheckState :=
  if s.execution_status = .aborted then .cs_fail
  else if s.failed_cell_count > 0 then .cs_fail
  else .cs_pass

/-- **C1 (amended).** `TvuCheck.get_outputs` returns `Pass` iff
`failed_cell_count == 0` and the execution status is *not* `aborted`;
it returns `Fail` iff the status is `aborted` or `failed_cell_count >
0`.  In particular a check whose `run` raised (status `failed`) with
`failed_cell_count == 0` is reported as `Pass`, not `Fail`. -/
theorem C1_tvu_check_state (s : TvuState) :
    (tvuCheckState s = .cs_pass ↔
      (s.failed_cell_count = 0 ∧ s.execution_status ≠ .aborted)) ∧
    (tvuCheckState s = .cs_fail ↔
      (s.execution_status = .aborted ∨ 0 < s.failed_cell_count)) := by
  unfold tvuCheckState
  constructor
  · split_ifs with h1 h2 <;> simp_all <;> omega
  · split_ifs with h1 h2 <;> simp_all <;> omega

/-- Counterexample to C1 as frozen: a `TvuCheck` whose `run` raised
(the executor sets status `'failed'`, `check_ended` never runs, the
counters keep their `__init__` zeros) is reported `Pass` by
`get_outputs` even though its status is not `'completed'`; the claim
requires `Fail` for status `'failed'`. -/
theorem C1_failed_status_counterexample :
    tvuCheckState (executorCatchFailed (check_started tvuInit))
      = .cs_pass ∧
    (executorCatchFailed (check_started tvuInit)).failed_cell_count = 0 ∧
    (executorCatchFailed (check_started tvuInit)).execution_status
      = .failed ∧
    .failed ≠ ExecStatus.completed := by
  refine ⟨by decide, by decide, by decide, by decide⟩

/-! ## `GridCheck.get_param` (`gridcheck.py` lines 71–87)

```
def get_param(self, param_name: str) -> Any:
    ''' Gets the parameter value from the list of QajsonParams. Returns
    None if no parameter found. ... '''
    if len(self.input_params) == 0:
        return None
    param = next(
        param
        for param in self.input_params
        if param.name == param_name
    )
    if param is None:
        return None
    else:
        return param.value
```

`next` over a generator with no default raises `StopIteration` when the
(non-empty) list holds no match, so the `if param is None` branch is
dead code.  A `QajsonParam` is a `(name, value)` pair; the uncaught
`StopIteration` is modelled as `Except.error ()`. -/
def get_param {V : Type} (input_params : List (String × V))
    (param_name : String) : Except Unit (Option V) :=
  if input_params.length = 0 then
    .ok none
  else
    match input_params.find? (fun p => p.1 == param_name) with
    | some p => .ok (some p.2)
    | none => .error ()

/-- **C7.** The claim (and the function's own docstring) say
`get_param` returns the first matching parameter's value and returns
none — without raising — when no parameter matches, whether the list is
empty or not.  The code only returns `None` for an *empty* list; on a
non-empty list with no match the bare `next(...)` raises
`StopIteration`.  First-match and empty-list behaviour are as claimed;
the non-empty no-match case diverges. -/
theorem C7_get_param_raises :
    get_param [("Constant Depth Error", (5 : Int))]
        "Factor of Depth Dependent Errors" = .error () ∧
    get_param ([] : List (String × Int)) "Constant Depth Error"
      = .ok none ∧
    get_param [("Constant Depth Error", (1 : Int)),
        ("Constant Depth Error", 2)] "Constant Depth Error"
      = .ok (some 1) :=
  ⟨rfl, rfl, rfl⟩

/-! ## Pink-chart extent alignment
(`PinkChartProcessor` in `ausseabed/mbesgc/lib/pinkchart.py`)

```
def _calc_ideal_value(self, res, source_val, target_val, is_min):
    d = source_val - target_val
    d_units = d / res
    if is_min:
        d_units = math.ceil(d_units)
    elif not is_min:
        d_units = math.floor(d_units)
    return source_val - d_units * res
```

`_calc_ideal_extents` applies this to the four bounds (`is_min=True` for
the two min bounds, `False` for the two max bounds).  The Python floats
are modelled as exact rationals; the claim concerns the arithmetic
relationship, which the spec itself qualifies with "to within eps".
-/

structure Extents where
  min_x : ℚ
  min_y : ℚ
  max_x : ℚ
  max_y : ℚ
deriving DecidableEq, Repr

/-- `PinkChartProcessor._calc_ideal_value`. -/
def calc_ideal_value (res source_val target_val : ℚ) ( is_min : Bool) : ℚ :=
  let d := source_val - target_val
  let d_units : Int := if is_min then ⌈d / res⌉ else ⌊d / res⌋
  source_val - d_units * res

/-- `PinkChartProcessor._calc_ideal_extents`. -/
def calc_ideal_extents (source_res_x source_res_y : ℚ)
    (source_extents target_extents : Extents) : Extents :=
  { min_x := calc_ideal_value source_res_x
      source_extents.min_x target_extents.min_x true
    min_y := calc_ideal_value source_res_y
      source_extents.min_y target_extents.min_y true
    max_x := calc_ideal_value source_res_x
      source_extents.max_x target_extents.max_x false
    max_y := calc_ideal_value source_res_y
      source_extents.max_y target_extents.max_y false }

theorem calc_ideal_value_min_le {res s t : ℚ} (hr : 0 < res) :
    calc_ideal_value res s t true ≤ t := by
  unfold calc_ideal_value
  dsimp only
  rw [if_pos rfl]
  have h1 : (s - t) / res ≤ ((⌈(s - t) / res⌉ : Int) : ℚ) := Int.le_ceil _
  have h2 : (s - t) / res * res ≤ ((⌈(s - t) / res⌉ : Int) : ℚ) * res :=
    mul_le_mul_of_nonneg_right h1 hr.le
  rw [div_mul_cancel₀ _ (ne_of_gt hr)] at h2
  linarith

theorem le_calc_ideal_value_max {res s t : ℚ} (hr : 0 < res) :
    t ≤ calc_ideal_value res s t false := by
  unfold calc_ideal_value
  dsimp only
  rw [if_neg (by simp)]
  have h1 : ((⌊(s - t) / res⌋ : Int) : ℚ) ≤ (s - t) / res := Int.floor_le _
  have h2 : ((⌊(s - t) / res⌋ : Int) : ℚ) * res ≤ (s - t) / res * res :=
    mul_le_mul_of_nonneg_right h1 hr.le
  rw [div_mul_cancel₀ _ (ne_of_gt hr)] at h2
  linarith

/-- **C4 (amended).** For every resolution `res_x, res_y > 0` and every
pair of extents, the aligned extent computed by
`_calc_ideal_extents(res_x, res_y, source, target)` is a superset of
the *target* (vector) extent, and on all four sides the aligned bound
differs from the corresponding source raster bound by an exact integer
multiple of the resolution (so it is pixel-snapped to the source grid).
It is *not* in general a superset of the source extent: each aligned
bound is the grid-snapped outward rounding of the target bound, which
lies strictly inside the source extent whenever the target bound does
by at least one resolution step (see the counterexample, which is the
spec's own scenario S6). -/
theorem C4_calc_ideal_extents_target_superset
    (res_x res_y : ℚ) (source target : Extents)
    (hx : 0 < res_x) (hy : 0 < res_y) :
    ((calc_ideal_extents res_x res_y source target).min_x ≤ target.min_x ∧
     (calc_ideal_extents res_x res_y source target).min_y ≤ target.min_y ∧
     target.max_x ≤ (calc_ideal_extents res_x res_y source target).max_x ∧
     target.max_y ≤ (calc_ideal_extents res_x res_y source target).max_y) ∧
    (∃ k : Int,
      (calc_ideal_extents res_x res_y source target).min_x
        = source.min_x - k * res_x) ∧
    (∃ k : Int,
      (calc_ideal_extents res_x res_y source target).min_y
        = source.min_y - k * res_y) ∧
    (∃ k : Int,
      (calc_ideal_extents res_x res_y source target).max_x
        = source.max_x - k * res_x) ∧
    (∃ k : Int,
      (calc_ideal_extents res_x res_y source target).max_y
        = source.max_y - k * res_y) := by
  refine ⟨⟨calc_ideal_value_min_le hx, calc_ideal_value_min_le hy,
      le_calc_ideal_value_max hx, le_calc_ideal_value_max hy⟩,
    ⟨⌈(source.min_x - target.min_x) / res_x⌉, rfl⟩,
    ⟨⌈(source.min_y - target.min_y) / res_y⌉, rfl⟩,
    ⟨⌊(source.max_x - target.max_x) / res_x⌋, rfl⟩,
    ⟨⌊(source.max_y - target.max_y) / res_y⌋, rfl⟩⟩

/-- Witness for C4 (amended) at the spec's scenario S6 data. -/
theorem C4_calc_ideal_extents_target_superset_witness :
    (0 : ℚ) < 1/2 ∧
    (((calc_ideal_extents (1/2) (1/2)
        { min_x := -4, min_y := 1, max_x := 1, max_y := 5 }
        { min_x := -63/10, min_y := -1/10, max_x := 21/10,
          max_y := 41/10 }).min_x
        ≤ (Extents.mk (-63/10) (-1/10) (21/10) (41/10)).min_x ∧
      (calc_ideal_extents (1/2) (1/2)
        { min_x := -4, min_y := 1, max_x := 1, max_y := 5 }
        { min_x := -63/10, min_y := -1/10, max_x := 21/10,
          max_y := 41/10 }).min_y
        ≤ (Extents.mk (-63/10) (-1/10) (21/10) (41/10)).min_y ∧
      (Extents.mk (-63/10) (-1/10) (21/10) (41/10)).max_x
        ≤ (calc_ideal_extents (1/2) (1/2)
            { min_x := -4, min_y := 1, max_x := 1, max_y := 5 }
            { min_x := -63/10, min_y := -1/10, max_x := 21/10,
              max_y := 41/10 }).max_x ∧
      (Extents.mk (-63/10) (-1/10) (21/10) (41/10)).max_y
        ≤ (calc_ideal_extents (1/2) (1/2)
            { min_x := -4, min_y := 1, max_x := 1, max_y := 5 }
            { min_x := -63/10, min_y := -1/10, max_x := 21/10,
              max_y := 41/10 }).max_y) ∧
    (∃ k : Int,
      (calc_ideal_extents (1/2) (1/2)
        { min_x := -4, min_y := 1, max_x := 1, max_y := 5 }
        { min_x := -63/10, min_y := -1/10, max_x := 21/10,
          max_y := 41/10 }).min_x
        = (Extents.mk (-4) 1 1 5).min_x - k * (1/2)) ∧
    (∃ k : Int,
      (calc_ideal_extents (1/2) (1/2)
        { min_x := -4, min_y := 1, max_x := 1, max_y := 5 }
        { min_x := -63/10, min_y := -1/10, max_x := 21/10,
          max_y := 41/10 }).min_y
        = (Extents.mk (-4) 1 1 5).min_y - k * (1/2)) ∧
    (∃ k : Int,
      (calc_ideal_extents (1/2) (1/2)
        { min_x := -4, min_y := 1, max_x := 1, max_y := 5 }
        { min_x := -63/10, min_y := -1/10, max_x := 21/10,
          max_y := 41/10 }).max_x
        = (Extents.mk (-4) 1 1 5).max_x - k * (1/2)) ∧
    (∃ k : Int,
      (calc_ideal_extents (1/2) (1/2)
        { min_x := -4, min_y := 1, max_x := 1, max_y := 5 }
        { min_x := -63/10, min_y := -1/10, max_x := 21/10,
          max_y := 41/10 }).max_y
        = (Extents.mk (-4) 1 1 5).max_y - k * (1/2))) :=
  ⟨by norm_num,
    C4_calc_ideal_extents_target_superset (1/2) (1/2)
      { min_x := -4, min_y := 1, max_x := 1, max_y := 5 }
      { min_x := -63/10, min_y := -1/10, max_x := 21/10, max_y := 41/10 }
      (by norm_num) (by norm_num)⟩

/-- Counterexample to C4 as frozen: the aligned extent is not a
superset of the *source* extent.  On the spec's own scenario S6
(`res = 0.5`, source `(-4, 1, 1, 5)`, target
`(-6.3, -0.1, 2.1, 4.1)`) the aligned extent is
`(-6.5, -0.5, 2.5, 4.5)` and its `max_y = 4.5` lies strictly below the
source's `max_y = 5`, so the source point band `4.5 < y ≤ 5` is cut
off. -/
theorem C4_source_superset_counterexample :
    calc_ideal_extents (1/2) (1/2)
        { min_x := -4, min_y := 1, max_x := 1, max_y := 5 }
        { min_x := -63/10, min_y := -1/10, max_x := 21/10, max_y := 41/10 }
      = { min_x := -13/2, min_y := -1/2, max_x := 5/2, max_y := 9/2 } ∧
    (9/2 : ℚ) < 5 := by
  constructor
  · have c1 : ⌈(23/5 : ℚ)⌉ = 5 := by norm_num [Int.ceil_eq_iff]
    have c2 : ⌈(11/5 : ℚ)⌉ = 3 := by norm_num [Int.ceil_eq_iff]
    have f1 : ⌊(-11/5 : ℚ)⌋ = -3 := by norm_num [Int.floor_eq_iff]
    have f2 : ⌊(9/5 : ℚ)⌋ = 1 := by norm_num [Int.floor_eq_iff]
    norm_num [calc_ideal_extents, calc_ideal_value, c1, c2, f1, f2,
      Extents.mk.injEq]
  · norm_num

/-! ## Input resolution (`ausseabed/mbesgc/lib/data.py`)

Pure, kernel-reducible replacements for the Python string operations
used there (`str.lower`, `str.endswith`, substring containment,
`os.path.splitext`, `Path(...).stem`): -/

/-- Is the first list a prefix of the second (char-wise)? -/
def isPrefixB : List Char → List Char → Bool
  | [], _ => true
  | _ :: _, [] => false
  | a :: as, b :: bs => a == b && isPrefixB as bs

/-- Python `haystack.__contains__(needle)` on strings (as char lists). -/
def hasSub (pat : List Char) : List Char → Bool
  | [] => pat.isEmpty
  | c :: rest => isPrefixB pat (c :: rest) || hasSub pat rest

/-- Python `s.endswith(suffix)`. -/
def strEndsWithB (s suffix : String) : Bool :=
  isPrefixB suffix.toList.reverse s.toList.reverse

/-- Python `s.lower()` (ASCII, which is all the code compares). -/
def lowerStr (s : String) : String := String.mk (s.toList.map Char.toLower)

/-- `os.path.splitext(f)[0]`: everything before the last dot (the
inputs exercised here are plain file names, where this is exact). -/
def splitExtRoot (s : String) : String :=
  match s.toList.reverse.findIdx? (· == '.') with
  | some i => String.mk (s.toList.take (s.toList.length - 1 - i))
  | none => s

/-- `pathlib.Path(f).name`: the part after the last slash. -/
def baseName (s : String) : String :=
  String.mk ((s.toList.reverse.takeWhile (· != '/')).reverse)

inductive BandType
  | depth
  | density
  | uncertainty
  | pinkChart
deriving DecidableEq, Repr

/-- One entry of `InputFileDetails.input_band_details`:
`(input_file, band_index, band_type)`. -/
abbrev BandDetail := String × Nat × BandType

/-- The attributes of `InputFileDetails` observed by the claims (the
geotransform, projection, pink-chart path, check list and qajson
back-references are carried alongside in the source but play no part in
the claims settled here).  `size_x`/`size_y` start as Python `None`. -/
structure InputFileDetails where
  size_x : Option Int
  size_y : Option Int
  input_band_details : List BandDetail
deriving DecidableEq, Repr

def emptyIFD : InputFileDetails :=
  { size_x := none, size_y := none, input_band_details := [] }

/-- `InputFileDetails.add_band_details`. -/
def addBand (ifd : InputFileDetails) (f : String) (i : Nat)
    (t : BandType) : InputFileDetails :=
  { ifd with input_band_details := ifd.input_band_details ++ [(f, i, t)] }

/-- `InputFileDetails.has_same_inputs` (data.py lines 74–86): for every
band triple of `self`, scan `other` for an equal triple; return False
at the first triple of `self` not found, else True.  This is a subset
test on `self`'s triples, not set equality. -/
def has_same_inputs (self other : List BandDetail) : Bool :=
  self.all (fun o => other.any (fun i => i == o))

/-- The `added` decision inside `inputs_from_qajson_checks`
(data.py lines 432–452): a freshly resolved `ci` is folded into an
existing IFD — its `(check_id, params)` appended there and `ci` itself
dropped — exactly when some existing IFD `e` has
`e.has_same_inputs(ci)`. -/
def added_to_existing (inputs : List (List BandDetail))
    (ci : List BandDetail) : Bool :=
  inputs.any (fun existing => has_same_inputs existing ci)

theorem has_same_inputs_iff (a b : List BandDetail) :
    has_same_inputs a b = true ↔ ∀ x ∈ a, x ∈ b := by
  unfold has_same_inputs
  rw [List.all_eq_true]
  constructor
  · intro h x hx
    obtain ⟨y, hy, he⟩ := List.any_eq_true.mp (h x hx)
    rwa [beq_iff_eq.mp he] at hy
  · intro h x hx
    exact List.any_eq_true.mpr ⟨x, h x hx, beq_iff_eq.mpr rfl⟩

def ifdSubsetBands : List BandDetail := [("f1", 1, .depth)]

def ifdSupersetBands : List BandDetail :=
  [("f1", 1, .depth), ("f1", 2, .density)]

/-- **C9.** `InputFileDetails.has_same_inputs(other)` returns true
exactly when every `(file, band index, band type)` triple of `self`
appears among `other`'s band details — a subset test, not set equality —
and is therefore not symmetric: for the concrete IFDs below (the first
one's bands a strict subset of the second's) the test holds one way and
fails the other, so `inputs_from_qajson_checks` can coalesce two inputs
whose band sets are not identical. -/
theorem C9_has_same_inputs_subset :
    (∀ a b : List BandDetail,
      has_same_inputs a b = true ↔ ∀ x ∈ a, x ∈ b) ∧
    has_same_inputs ifdSubsetBands ifdSupersetBands = true ∧
    has_same_inputs ifdSupersetBands ifdSubsetBands = false ∧
    ifdSubsetBands ≠ ifdSupersetBands ∧
    added_to_existing [ifdSubsetBands] ifdSupersetBands = true :=
  ⟨has_same_inputs_iff, by decide, by decide, by decide, by decide⟩

/-- The slice of GDAL/the filesystem that `data.py` consults, as an
oracle: `os.path.isfile`, whether `gdal.Open` succeeds, and per-raster
sizes, band counts and band descriptions. -/
structure GdalEnv where
  isfile : String → Bool
  openable : String → Bool
  sizeX : String → Int
  sizeY : String → Int
  bandCount : String → Nat
  bandDesc : String → Nat → String

/-- `_get_bag_details` (data.py lines 315–372).  (The two `gdal.Open`
calls are not None-checked in the source — an unopenable file would
crash with `AttributeError` — so the oracle is consulted directly.) -/
def get_bag_details (env : GdalEnv) (input_file : String) :
    Except String InputFileDetails :=
  let fn_no_extension := splitExtRoot input_file
  let input_file_density := fn_no_extension ++ "_Density.bag"
  if ¬ env.isfile input_file_density then
    .error ("Could not find density file for bag , expected "
      ++ input_file_density)
  else if env.sizeX input_file ≠ env.sizeX input_file_density
      ∨ env.sizeY input_file ≠ env.sizeY input_file_density then
    .error ("mismatch in data sizes across depth and density inputs. "
      ++ "Both files must have the same size.")
  else if env.bandCount input_file ≠ 2 then
    .error ("input file (" ++ input_file ++ ") has wrong band count"
      ++ " and 2 are expected.")
  else if env.bandCount input_file_density ≠ 2 then
    .error ("input file (" ++ input_file_density
      ++ ") has wrong band count and 2 are expected.")
  else
    .ok { size_x := some (env.sizeX input_file)
          size_y := some (env.sizeY input_file)
          input_band_details :=
            [(input_file, 1, .depth),
             (input_file, 2, .uncertainty),
             (input_file_density, 1, .density)] }

/-- The per-band labelling loop of `_get_tiff_details`: for
`band_index ∈ [1, bandCount]`, assign a band type when the band's
description contains `depth` / `density` / `uncertainty`
(case-insensitive); the Bool is `file_added`. -/
def tiffAddLabeled (env : GdalEnv) (f : String)
    (ifd0 : InputFileDetails) : InputFileDetails × Bool :=
  (List.range (env.bandCount f)).foldl
    (fun (acc : InputFileDetails × Bool) i =>
      let band_index := i + 1
      let band_name := lowerStr (env.bandDesc f band_index)
      if hasSub "depth".toList band_name.toList then
        (addBand acc.1 f band_index .depth, true)
      else if hasSub "density".toList band_name.toList then
        (addBand acc.1 f band_index .density, true)
      else if hasSub "uncertainty".toList band_name.toList then
        (addBand acc.1 f band_index .uncertainty, true)
      else acc)
    (ifd0, false)

/-- The per-file body of `_get_tiff_details` (data.py lines 248–310):
record the raster size, label bands by description, fall back to the
single-band filename-stem convention, and finally to the legacy
ordering (which clears everything accumulated and iterates
`band_index ∈ [1, bandCount)`, skipping the last band — the defect
acknowledged in spec §9). -/
def tiffProcessFile (env : GdalEnv) (ifd : InputFileDetails)
    (input_file : String) : Except String InputFileDetails :=
  if ¬ env.openable input_file then
    .error ("input file " ++ input_file ++ " could not be opened")
  else
    let ifd1 := { ifd with size_x := some (env.sizeX input_file)
                           size_y := some (env.sizeY input_file) }
    let labeled := tiffAddLabeled env input_file ifd1
    let name_only := lowerStr (splitExtRoot (baseName input_file))
    if labeled.2 then .ok labeled.1
    else if env.bandCount input_file = 1
        ∧ hasSub "depth".toList name_only.toList then
      .ok (addBand labeled.1 input_file 1 .depth)
    else if env.bandCount input_file = 1
        ∧ hasSub "density".toList name_only.toList then
      .ok (addBand labeled.1 input_file 1 .density)
    else if env.bandCount input_file = 1
        ∧ hasSub "uncertainty".toList name_only.toList then
      .ok (addBand labeled.1 input_file 1 .uncertainty)
    else
      let cleared := { labeled.1 with input_band_details := [] }
      .ok ((List.range (env.bandCount input_file - 1)).foldl
        (fun acc i =>
          let band_index := i + 1
          let bt := if band_index = 1 then BandType.depth
            else if band_index = 2 then BandType.density
            else BandType.uncertainty
          addBand acc input_file band_index bt) cleared)

/-- `_get_tiff_details` (data.py lines 242–312): one shared IFD folded
over all the files. -/
def get_tiff_details (env : GdalEnv) (input_files : List String) :
    Except String InputFileDetails :=
  input_files.foldlM (tiffProcessFile env) emptyIFD

/-- `get_input_details` (data.py lines 375–409).

```
for i in range(0, len(inputfiles)):
    inputfile = inputfiles[i]
    if not os.path.isfile(inputfile) and relative_to is not None:
        test_rel_file = os.path.join(relative_to, inputfile)
        if os.path.isfile(test_rel_file):
            inputfiles[i] = test_rel_file
if len(inputfiles) == 0:
    raise RuntimeError("No gridded input files provided")
if (inputfiles[0].lower().endswith('.tif')
        or inputfiles[0].lower().endswith('.tiff')):
    tifdetails = _get_tiff_details(inputfiles)
    inputdetails.append(tifdetails)
elif inputfiles[0].lower().endswith('_density.bag'):
    pass
elif inputfile[0].lower().endswith('.bag'):
    bagdetails = _get_bag_details(inputfiles[0])
    inputdetails.append(bagdetails)
return inputdetails
```

After the resolution loop, the loop variable `inputfile` holds the
*last* resolved filename, so `inputfile[0]` in the third branch is that
filename's *first character*; a one-character string never ends with
`'.bag'`, which makes the BAG branch unreachable (and, the filenames
here being non-empty, raises nothing). -/
def get_input_details (env : GdalEnv) (inputfiles : List String)
    (relative_to : Option String) :
    Except String (List InputFileDetails) :=
  let files := inputfiles.map (fun f =>
    if ¬ env.isfile f then
      match relative_to with
      | some r =>
        let test_rel_file := r ++ "/" ++ f
        if env.isfile test_rel_file then test_rel_file else f
      | none => f
    else f)
  if files.length = 0 then
    .error "No gridded input files provided"
  else
    let first := files.headD ""
    -- the loop variable left over from the resolution loop:
    let inputfile := files.getLastD ""
    if strEndsWithB (lowerStr first) ".tif"
        || strEndsWithB (lowerStr first) ".tiff" then
      (get_tiff_details env files).map (fun d => [d])
    else if strEndsWithB (lowerStr first) "_density.bag" then
      .ok []
    else if strEndsWithB (lowerStr (String.singleton inputfile.front))
        ".bag" then
      (get_bag_details env first).map (fun d => [d])
    else
      .ok []

/-- An environment with a well-formed BAG pair: `survey.bag` (depth +
uncertainty) and its sibling `survey_Density.bag`, equal sizes, two
bands each. -/
def bagEnv : GdalEnv :=
  { isfile := fun f => f == "survey.bag" || f == "survey_Density.bag"
    openable := fun f => f == "survey.bag" || f == "survey_Density.bag"
    sizeX := fun _ => 100
    sizeY := fun _ => 80
    bandCount := fun _ => 2
    bandDesc := fun _ _ => "" }

/-- Like `bagEnv` but the density raster is 50 px wide instead of
100. -/
def bagEnvMismatch : GdalEnv :=
  { bagEnv with sizeX := fun f => if f == "survey_Density.bag" then 50 else 100 }

/-- **C3.** The claim (which the spec backs as the intent, flagging the
`inputfile[0]` dereference as a bug) says that for an input list whose
first entry ends in `.bag` (but not `_density.bag`),
`get_input_details` returns one IFD with depth = band 1 and
uncertainty = band 2 of that file and density = band 1 of the sibling
`<stem>_Density.bag`, and raises a fatal `RuntimeError` on a pixel-size
mismatch.  `_get_bag_details` indeed produces exactly that IFD / that
error — but the branch that would call it tests
`inputfile[0].lower().endswith('.bag')` on a *single character*, never
matches, and `get_input_details` returns the empty list instead in both
scenarios. -/
theorem C3_bag_branch_unreachable :
    get_input_details bagEnv ["survey.bag"] none = .ok [] ∧
    get_bag_details bagEnv "survey.bag"
      = .ok { size_x := some 100
              size_y := some 80
              input_band_details :=
                [("survey.bag", 1, .depth),
                 ("survey.bag", 2, .uncertainty),
                 ("survey_Density.bag", 1, .density)] } ∧
    get_input_details bagEnvMismatch ["survey.bag"] none = .ok [] ∧
    get_bag_details bagEnvMismatch "survey.bag"
      = .error ("mismatch in data sizes across depth and density inputs. "
        ++ "Both files must have the same size.") :=
  ⟨rfl, rfl, rfl, rfl⟩

/-! ## Executor control flow: polling, cancellation and result caching
(`Executor.run` / `Executor._run_checks`, `executor.py` lines 174–352)

The control flow relevant to claim C8, with everything else abstracted
to opaque indices:

* a *plan* is the list of IFDs, each contributing its tile count (the
  executor derives it with `get_tiles` from the IFD's size) and its list
  of check ids (all assumed registered; an unregistered id is skipped
  *after* its `is_stopped` poll, so it would add a poll event and
  nothing else — the poll-before-every-check shape is unchanged);
* `run` emits a trace of events: `preprocess` (the `_preprocess()`
  call, made before any `is_stopped` poll), `poll b` (one call of
  `is_stopped` observing `b`), `tileLoad` (`_load_data`) and `checkRun`
  (`check_started/run/check_ended` plus the merge into
  `check_result_cache`);
* `is_stopped` is modelled as a predicate on the number of polls made
  so far; the real callable is a latch ("has the user stopped the
  run?"), captured by a monotonicity hypothesis;
* the cache maps `(ifd index, check id)` to the list of tile indices
  whose per-tile results have been merged into the cached check (the
  merged state itself is studied in the DensityCheck section);
* faithful quirk: when a *check-level* poll observes true,
  `_run_checks` returns but the *tile loop keeps going* — the next
  tile's poll (true again, the predicate being a latch) is what ends
  `run`; a *tile-level* true poll returns from `run` directly.  Progress
  callbacks are pure reporting and are omitted.
-/

inductive Ev
  | preprocess
  | poll (stopped : Bool)
  | tileLoad (ifd tile : Nat)
  | checkRun (ifd tile cid : Nat)
deriving DecidableEq, Repr

/-- `check_result_cache`: `(src_ifd, check_id) ↦` merged tile list. -/
abbrev Cache := List ((Nat × Nat) × List Nat)

/-- One cache update from `_run_checks` lines 238–248: if the key is
present, the previous result is merged into the fresh per-tile check
(`check.merge_results(last_check)`) and the entry replaced; otherwise
the fresh result is inserted. -/
def cacheMerge (cache : Cache) (key : Nat × Nat) (tile : Nat) : Cache :=
  if cache.any (fun e => e.1 == key) then
    cache.map (fun e => if e.1 == key then (e.1, e.2 ++ [tile]) else e)
  else
    cache ++ [(key, [tile])]

/-- The cache effect of one trace event. -/
def cacheStep (c : Cache) (e : Ev) : Cache :=
  match e with
  | .checkRun i t cid => cacheMerge c (i, cid) t
  | _ => c

/-- The cache a trace builds from empty: exactly the merges of the
checks that actually ran. -/
def cacheOfTrace (l : List Ev) : Cache := l.foldl cacheStep []

/-- The check loop of `_run_checks` (lines 200–251): poll before every
check; on an observed stop return (to the tile loop); otherwise run the
check and merge it into the cache.  Returns the events, the cache, and
the next poll counter. -/
def runChecksEvs (stop : Nat → Bool) (i t : Nat) :
    Nat → List Nat → Cache → List Ev × Cache × Nat
  | k, [], cache => ([], cache, k)
  | k, c :: rest, cache =>
    if stop k then ([.poll true], cache, k + 1)
    else
      let cache1 := cacheMerge cache (i, c) t
      let r := runChecksEvs stop i t (k + 1) rest cache1
      (.poll false :: .checkRun i t c :: r.1, r.2)

/-- The tile loop of `Executor.run` (lines 325–352) for one IFD: poll
before every tile; on an observed stop return from `run` (the Bool is
that halt flag); otherwise load the tile and run the checks — and keep
looping even if the check loop saw a stop (that is what the source
does). -/
def runTilesEvs (stop : Nat → Bool) (i : Nat) (cids : List Nat) :
    Nat → Nat → Nat → Cache → List Ev × Cache × Nat × Bool
  | k, _, 0, cache => ([], cache, k, false)
  | k, t, n + 1, cache =>
    if stop k then ([.poll true], cache, k + 1, true)
    else
      let rc := runChecksEvs stop i t (k + 1) cids cache
      let rt := runTilesEvs stop i cids rc.2.2 (t + 1) n rc.2.1
      (.poll false :: .tileLoad i t :: rc.1 ++ rt.1, rt.2)

/-- The IFD loop of `Executor.run` (lines 320–352): a tile-level halt
propagates out of the whole loop (`return`). -/
def runIfdsEvs (stop : Nat → Bool) :
    Nat → Nat → List (Nat × List Nat) → Cache → List Ev × Cache × Nat
  | k, _, [], cache => ([], cache, k)
  | k, i, (ntiles, cids) :: rest, cache =>
    let rt := runTilesEvs stop i cids k 0 ntiles cache
    if rt.2.2.2 then (rt.1, rt.2.1, rt.2.2.1)
    else
      let ri := runIfdsEvs stop rt.2.2.1 (i + 1) rest rt.2.1
      (rt.1 ++ ri.1, ri.2)

/-- `Executor.run`: `_preprocess()` is called unconditionally — no
`is_stopped` poll precedes it — then the cache is reset
(`self.check_result_cache = \x7b\x7d`, line 290) and the IFD loop
runs. -/
def executorRun (plan : List (Nat × List Nat)) (stop : Nat → Bool) :
    List Ev × Cache :=
  let r := runIfdsEvs stop 0 0 plan []
  (Ev.preprocess :: r.1, r.2.1)

/-! Trace well-formedness scanners. -/

def isWorkEv : Ev → Bool
  | .tileLoad _ _ => true
  | .checkRun _ _ _ => true
  | _ => false

/-- Every work event is immediately preceded by a poll that observed
`false`; `prev` is the preceding event. -/
def guardedFrom (prev : Ev) : List Ev → Bool
  | [] => true
  | e :: rest => (!isWorkEv e || prev == .poll false) && guardedFrom e rest

/-- The head is no work event, and every work event is immediately
preceded by `poll false`. -/
def workGuarded : List Ev → Bool
  | [] => true
  | e :: rest => !isWorkEv e && guardedFrom e rest

/-- No preprocessing, tile loading or check execution among these
events. -/
def noWorkEvs (l : List Ev) : Bool :=
  l.all (fun e => !isWorkEv e && e != .preprocess)

/-- Once some poll observes `true`, nothing but further polls follows:
no preprocessing, no tile load, no check run. -/
def afterTrueOk : List Ev → Bool
  | [] => true
  | .poll true :: rest => noWorkEvs rest
  | _ :: rest => afterTrueOk rest

theorem guardedFrom_append {p : Ev} {a b : List Ev}
    (ha : guardedFrom p a = true) (hb : ∀ q : Ev, guardedFrom q b = true) :
    guardedFrom p (a ++ b) = true := by
  induction a generalizing p with
  | nil => exact hb p
  | cons e a ih =>
    simp only [guardedFrom, Bool.and_eq_true] at ha
    simp only [List.cons_append, guardedFrom, Bool.and_eq_true]
    exact ⟨ha.1, ih ha.2⟩

theorem all_pollTrue_guardedFrom {l : List Ev}
    (h : l.all (fun e => e == .poll true) = true) (q : Ev) :
    guardedFrom q l = true := by
  induction l generalizing q with
  | nil => rfl
  | cons e l ih =>
    simp only [List.all_cons, Bool.and_eq_true, beq_iff_eq] at h
    obtain ⟨rfl, h2⟩ := h
    simp only [guardedFrom, Bool.and_eq_true]
    exact ⟨by simp [isWorkEv], ih (by simpa using h2) _⟩

theorem all_pollTrue_noWork {l : List Ev}
    (h : l.all (fun e => e == .poll true) = true) :
    noWorkEvs l = true := by
  unfold noWorkEvs
  rw [List.all_eq_true] at h ⊢
  intro e he
  have := h e he
  rw [beq_iff_eq.mp this]
  simp [isWorkEv]

theorem all_pollTrue_afterTrueOk {l : List Ev}
    (h : l.all (fun e => e == .poll true) = true) :
    afterTrueOk l = true := by
  induction l with
  | nil => rfl
  | cons e l ih =>
    simp only [List.all_cons, Bool.and_eq_true, beq_iff_eq] at h
    obtain ⟨rfl, h2⟩ := h
    show noWorkEvs l = true
    exact all_pollTrue_noWork (by simpa using h2)

theorem afterTrueOk_cons_not_pollTrue {e : Ev} {l : List Ev}
    (he : e ≠ .poll true) :
    afterTrueOk (e :: l) = afterTrueOk l := by
  cases e with
  | poll b =>
    cases b with
    | true => exact absurd rfl he
    | false => rfl
  | preprocess => rfl
  | tileLoad i t => rfl
  | checkRun i t c => rfl

theorem noWorkEvs_append {a b : List Ev} (haa : noWorkEvs a = true)
    (hbb : noWorkEvs b = true) : noWorkEvs (a ++ b) = true := by
  unfold noWorkEvs at *
  rw [List.all_eq_true] at *
  intro e he
  rcases List.mem_append.mp he with h | h
  · exact haa e h
  · exact hbb e h

theorem afterTrueOk_append {a b : List Ev}
    (ha : afterTrueOk a = true) (hb : afterTrueOk b = true)
    (hab : Ev.poll true ∈ a → noWorkEvs b = true) :
    afterTrueOk (a ++ b) = true := by
  induction a with
  | nil => exact hb
  | cons e a ih =>
    by_cases he : e = .poll true
    · subst he
      have hnwa : noWorkEvs a = true := ha
      show afterTrueOk (Ev.poll true :: (a ++ b)) = true
      show noWorkEvs (a ++ b) = true
      exact noWorkEvs_append hnwa (hab (List.mem_cons_self _ _))
    · rw [List.cons_append, afterTrueOk_cons_not_pollTrue he]
      rw [afterTrueOk_cons_not_pollTrue he] at ha
      exact ih ha (fun hm => hab (List.mem_cons_of_mem _ hm))

/-- What every loop segment of the executor satisfies, given the entry
poll counter `k` and entry cache: the counter only grows; every work
event is poll-guarded (whatever precedes the segment); the segment
starts with a poll if at all; the resulting cache is exactly the entry
cache folded through the segment's own events (merges are never undone);
a `poll true` in the segment means the stop predicate was true at some
consumed counter; and no work follows a true poll within the segment. -/
def SegSpec (stop : Nat → Bool) (k : Nat) (cache : Cache)
    (evs : List Ev) (cache' : Cache) (k' : Nat) : Prop :=
  k ≤ k' ∧
  (∀ q : Ev, guardedFrom q evs = true) ∧
  (∀ e : Ev, evs.head? = some e → isWorkEv e = false) ∧
  cache' = evs.foldl cacheStep cache ∧
  (Ev.poll true ∈ evs → ∃ m, m < k' ∧ stop m = true) ∧
  afterTrueOk evs = true

theorem SegSpec.nil {stop : Nat → Bool} {k : Nat} {cache : Cache} :
    SegSpec stop k cache [] cache k :=
  ⟨le_refl _, fun _ => rfl, fun e he => by simp at he, rfl,
   fun h => absurd h (List.not_mem_nil _), rfl⟩

theorem SegSpec.pollTrue {stop : Nat → Bool} {k : Nat} {cache : Cache}
    (hs : stop k = true) :
    SegSpec stop k cache [.poll true] cache (k + 1) := by
  refine ⟨Nat.le_succ _, fun q => by simp [guardedFrom, isWorkEv],
    ?_, rfl, fun _ => ⟨k, Nat.lt_succ_self _, hs⟩, rfl⟩
  intro e he
  simp only [List.head?_cons, Option.some.injEq] at he
  subst he
  rfl

theorem SegSpec.append {stop : Nat → Bool} {k k1 k2 : Nat}
    {cache cache1 cache2 : Cache} {evs1 evs2 : List Ev}
    (h1 : SegSpec stop k cache evs1 cache1 k1)
    (h2 : SegSpec stop k1 cache1 evs2 cache2 k2)
    (hnw : Ev.poll true ∈ evs1 → noWorkEvs evs2 = true) :
    SegSpec stop k cache (evs1 ++ evs2) cache2 k2 := by
  obtain ⟨ha1, ha2, ha3, ha4, ha5, ha6⟩ := h1
  obtain ⟨hb1, hb2, hb3, hb4, hb5, hb6⟩ := h2
  refine ⟨le_trans ha1 hb1, fun q => guardedFrom_append (ha2 q) hb2,
    ?_, ?_, ?_, afterTrueOk_append ha6 hb6 hnw⟩
  · intro e he
    cases evs1 with
    | nil => exact hb3 e he
    | cons x xs => exact ha3 e (by simpa using he)
  · rw [List.foldl_append, ← ha4, hb4]
  · intro hmem
    rcases List.mem_append.mp hmem with h | h
    · obtain ⟨m, hm, hsm⟩ := ha5 h
      exact ⟨m, lt_of_lt_of_le hm hb1, hsm⟩
    · exact hb5 h

theorem SegSpec.poll_work_cons {stop : Nat → Bool} {k k1 k' : Nat}
    {cache cache' : Cache} {w : Ev} {evs : List Ev}
    (hw : isWorkEv w = true) (hk : k ≤ k1)
    (h : SegSpec stop k1 (cacheStep cache w) evs cache' k') :
    SegSpec stop k cache (.poll false :: w :: evs) cache' k' := by
  obtain ⟨h1, h2, h3, h4, h5, h6⟩ := h
  have hwt : w ≠ .poll true := by
    intro hwe; subst hwe; simp [isWorkEv] at hw
  refine ⟨le_trans hk h1, ?_, ?_, ?_, ?_, ?_⟩
  · intro q
    simp only [guardedFrom, Bool.and_eq_true]
    refine ⟨by simp [isWorkEv], by simp [hw], h2 w⟩
  · intro e he
    simp only [List.head?_cons, Option.some.injEq] at he
    subst he
    rfl
  · rw [List.foldl_cons, List.foldl_cons]
    exact h4
  · intro hmem
    rcases List.mem_cons.mp hmem with hpt | hmem2
    · exact absurd hpt.symm (by simp)
    rcases List.mem_cons.mp hmem2 with hpt | hmem3
    · exact absurd hpt.symm hwt
    · exact h5 hmem3
  · rw [afterTrueOk_cons_not_pollTrue (by simp),
      afterTrueOk_cons_not_pollTrue hwt]
    exact h6

theorem runChecksEvs_spec (stop : Nat → Bool) (i t : Nat)
    (cids : List Nat) :
    ∀ (k : Nat) (cache : Cache),
      SegSpec stop k cache (runChecksEvs stop i t k cids cache).1
        (runChecksEvs stop i t k cids cache).2.1
        (runChecksEvs stop i t k cids cache).2.2 := by
  induction cids with
  | nil => intro k cache; exact SegSpec.nil
  | cons c rest ih =>
    intro k cache
    by_cases hs : stop k
    · simp only [runChecksEvs, if_pos hs]
      exact SegSpec.pollTrue hs
    · simp only [runChecksEvs, if_neg hs]
      exact SegSpec.poll_work_cons rfl (Nat.le_succ k)
        (ih (k + 1) (cacheMerge cache (i, c) t))

/-- If the stop latch was already true at or before the entry counter,
the tile loop emits nothing but `poll true` (it halts at its very first
poll, or has no tiles). -/
theorem runTilesEvs_stopped {stop : Nat → Bool}
    (hmono : ∀ m n : Nat, m ≤ n → stop m = true → stop n = true)
    {i : Nat} {cids : List Nat} {k t n : Nat} {cache : Cache}
    (hs : ∃ m, m ≤ k ∧ stop m = true) :
    (runTilesEvs stop i cids k t n cache).1.all
      (fun e => e == .poll true) = true := by
  obtain ⟨m, hmk, hsm⟩ := hs
  cases n with
  | zero => rfl
  | succ n =>
    have hk : stop k = true := hmono m k hmk hsm
    simp [runTilesEvs, hk]

theorem runTilesEvs_spec {stop : Nat → Bool}
    (hmono : ∀ m n : Nat, m ≤ n → stop m = true → stop n = true)
    (i : Nat) (cids : List Nat) :
    ∀ (n k t : Nat) (cache : Cache),
      SegSpec stop k cache (runTilesEvs stop i cids k t n cache).1
        (runTilesEvs stop i cids k t n cache).2.1
        (runTilesEvs stop i cids k t n cache).2.2.1 ∧
      ((runTilesEvs stop i cids k t n cache).2.2.2 = true →
        ∃ m, m < (runTilesEvs stop i cids k t n cache).2.2.1 ∧
          stop m = true) := by
  intro n
  induction n with
  | zero =>
    intro k t cache
    exact ⟨SegSpec.nil, fun h => by simp [runTilesEvs] at h⟩
  | succ n ih =>
    intro k t cache
    by_cases hs : stop k
    · simp only [runTilesEvs, if_pos hs]
      exact ⟨SegSpec.pollTrue hs, fun _ => ⟨k, Nat.lt_succ_self _, hs⟩⟩
    · simp only [runTilesEvs, if_neg hs]
      have rc := runChecksEvs_spec stop i t cids (k + 1) cache
      obtain ⟨rt, rth⟩ := ih (runChecksEvs stop i t (k + 1) cids cache).2.2
        (t + 1) (runChecksEvs stop i t (k + 1) cids cache).2.1
      have hnw : Ev.poll true ∈ (runChecksEvs stop i t (k + 1) cids cache).1 →
          noWorkEvs (runTilesEvs stop i cids
            (runChecksEvs stop i t (k + 1) cids cache).2.2 (t + 1) n
            (runChecksEvs stop i t (k + 1) cids cache).2.1).1 = true := by
        intro hm
        obtain ⟨m, hmk, hsm⟩ := rc.2.2.2.2.1 hm
        exact all_pollTrue_noWork
          (runTilesEvs_stopped hmono ⟨m, le_of_lt hmk, hsm⟩)
      refine ⟨SegSpec.poll_work_cons rfl (Nat.le_succ k)
        (SegSpec.append rc rt hnw), fun hh => rth hh⟩

/-- Like `runTilesEvs_stopped` for the IFD loop. -/
theorem runIfdsEvs_stopped {stop : Nat → Bool}
    (hmono : ∀ m n : Nat, m ≤ n → stop m = true → stop n = true) :
    ∀ (plan : List (Nat × List Nat)) (k i : Nat) (cache : Cache),
      (∃ m, m ≤ k ∧ stop m = true) →
      (runIfdsEvs stop k i plan cache).1.all
        (fun e => e == .poll true) = true := by
  intro plan
  induction plan with
  | nil => intro k i cache _; rfl
  | cons p rest ih =>
    intro k i cache hs
    obtain ⟨nt, cids⟩ := p
    obtain ⟨m, hmk, hsm⟩ := hs
    cases nt with
    | zero =>
      simp only [runIfdsEvs, runTilesEvs]
      exact ih k (i + 1) cache ⟨m, hmk, hsm⟩
    | succ nt =>
      have hk : stop k = true := hmono m k hmk hsm
      simp [runIfdsEvs, runTilesEvs, hk]

theorem runIfdsEvs_spec {stop : Nat → Bool}
    (hmono : ∀ m n : Nat, m ≤ n → stop m = true → stop n = true) :
    ∀ (plan : List (Nat × List Nat)) (k i : Nat) (cache : Cache),
      SegSpec stop k cache (runIfdsEvs stop k i plan cache).1
        (runIfdsEvs stop k i plan cache).2.1
        (runIfdsEvs stop k i plan cache).2.2 := by
  intro plan
  induction plan with
  | nil => intro k i cache; exact SegSpec.nil
  | cons p rest ih =>
    intro k i cache
    obtain ⟨nt, cids⟩ := p
    obtain ⟨rt, rth⟩ := runTilesEvs_spec hmono i cids nt k 0 cache
    by_cases hh : (runTilesEvs stop i cids k 0 nt cache).2.2.2
    · simp only [runIfdsEvs, if_pos hh]
      exact rt
    · simp only [runIfdsEvs, if_neg hh]
      have ri := ih (runTilesEvs stop i cids k 0 nt cache).2.2.1 (i + 1)
        (runTilesEvs stop i cids k 0 nt cache).2.1
      have hnw : Ev.poll true ∈ (runTilesEvs stop i cids k 0 nt cache).1 →
          noWorkEvs (runIfdsEvs stop
            (runTilesEvs stop i cids k 0 nt cache).2.2.1 (i + 1) rest
            (runTilesEvs stop i cids k 0 nt cache).2.1).1 = true := by
        intro hm
        obtain ⟨m, hmk, hsm⟩ := rt.2.2.2.2.1 hm
        exact all_pollTrue_noWork
          (runIfdsEvs_stopped hmono rest _ (i + 1) _ ⟨m, le_of_lt hmk, hsm⟩)
      exact SegSpec.append rt ri hnw

/-- **C8 (amended).** With a latched (monotone) `is_stopped`,
`Executor.run` polls it before each tile and before each check within a
tile — every tile load and every check execution in the trace is
immediately preceded by a poll that observed false — and once a poll
observes true no further preprocessing, tile loading, or check
execution happens; every result already merged into
`check_result_cache` is retained (the final cache is exactly the entry
cache folded through the executed merges — nothing is cleared or rolled
back on cancellation).  However, `is_stopped` is *not* polled before
preprocessing: `_preprocess()` is unconditionally the first thing `run`
does (see the counterexample). -/
theorem C8_executor_polling_caching (plan : List (Nat × List Nat))
    (stop : Nat → Bool)
    (hmono : ∀ m n : Nat, m ≤ n → stop m = true → stop n = true) :
    (executorRun plan stop).1.head? = some .preprocess ∧
    workGuarded (executorRun plan stop).1 = true ∧
    afterTrueOk (executorRun plan stop).1 = true ∧
    (executorRun plan stop).2 = cacheOfTrace (executorRun plan stop).1 := by
  obtain ⟨h1, h2, h3, h4, h5, h6⟩ := runIfdsEvs_spec hmono plan 0 0 []
  refine ⟨rfl, ?_, ?_, ?_⟩
  · show workGuarded (Ev.preprocess :: (runIfdsEvs stop 0 0 plan []).1) = true
    simp only [workGuarded, Bool.and_eq_true]
    exact ⟨by simp [isWorkEv], h2 .preprocess⟩
  · show afterTrueOk (Ev.preprocess :: (runIfdsEvs stop 0 0 plan []).1) = true
    rw [afterTrueOk_cons_not_pollTrue (by simp)]
    exact h6
  · show (runIfdsEvs stop 0 0 plan []).2.1
      = cacheOfTrace (Ev.preprocess :: (runIfdsEvs stop 0 0 plan []).1)
    unfold cacheOfTrace
    rw [List.foldl_cons]
    exact h4

/-- Witness for C8 (amended): a two-tile, two-check plan with a stop
predicate that never fires (trivially monotone). -/
theorem C8_executor_polling_caching_witness :
    (∀ m n : Nat, m ≤ n → (fun _ : Nat => false) m = true →
      (fun _ : Nat => false) n = true) ∧
    ((executorRun [(2, [0, 1])] (fun _ => false)).1.head?
        = some .preprocess ∧
     workGuarded (executorRun [(2, [0, 1])] (fun _ => false)).1 = true ∧
     afterTrueOk (executorRun [(2, [0, 1])] (fun _ => false)).1 = true ∧
     (executorRun [(2, [0, 1])] (fun _ => false)).2
        = cacheOfTrace (executorRun [(2, [0, 1])] (fun _ => false)).1) :=
  ⟨fun _ _ _ h => h,
    C8_executor_polling_caching [(2, [0, 1])] (fun _ => false)
      (fun _ _ _ h => h)⟩

/-- Counterexample to C8 as frozen: the claim says `is_stopped` is
polled *before preprocessing* and that once a poll observes true no
further preprocessing happens.  With `is_stopped` already true before
`run` starts, the trace is `[preprocess, poll true]`: preprocessing is
performed in full before the first poll ever happens. -/
theorem C8_preprocess_not_polled_counterexample :
    executorRun [(1, [0])] (fun _ => true)
      = ([Ev.preprocess, Ev.poll true], []) ∧
    Ev.preprocess ∈ (executorRun [(1, [0])] (fun _ => true)).1 := by
  exact ⟨rfl, by decide⟩

end MbesGC
